import Mathlib

/-!
Shallow embedding of the ffxiv-stat-calculator core (src/index.js).

The program computes, for each game statistic, a list of derived values and
the nearest lower/higher statistic thresholds ("breakpoints") at which each
derived value changes.  All arithmetic in the source goes through the external
`Decimal` dependency, which provides exact decimal arithmetic with explicit
rounding; every quantity the program manipulates is an exact decimal, so the
arithmetic is modeled by `ℚ` here, with explicit floor / truncation operations
where the source calls `.floor()` or `.toDecimalPlaces(2, Decimal.ROUND_DOWN)`.
-/

namespace StatCalc

/-- Executable floor on `ℚ` (rounds toward negative infinity), mirroring
`Decimal.prototype.floor`.  Defined by integer (Euclidean) division of the
reduced numerator by the (positive) denominator so that it evaluates inside
the kernel; `dfloor_eq_floor` identifies it with `Int.floor`. -/
def dfloor (q : ℚ) : ℤ := q.num / q.den

theorem dfloor_eq_floor (q : ℚ) : dfloor q = ⌊q⌋ := Rat.floor_def.symm

/-- Floor returned as a decimal again, as `Decimal.prototype.floor` does. -/
def dfloorQ (q : ℚ) : ℚ := (dfloor q : ℚ)

theorem dfloorQ_eq (q : ℚ) : dfloorQ q = ((⌊q⌋ : ℤ) : ℚ) := by
  unfold dfloorQ; rw [dfloor_eq_floor]

/-- Executable ceiling on `ℚ` (rounds toward positive infinity). -/
def dceilQ (q : ℚ) : ℚ := -dfloorQ (-q)

theorem dceilQ_eq (q : ℚ) : dceilQ q = ((⌈q⌉ : ℤ) : ℚ) := by
  unfold dceilQ
  rw [dfloorQ_eq, Int.floor_neg]
  push_cast
  ring

/-- The source's `.toDecimalPlaces(2, Decimal.ROUND_DOWN)`: round to two
decimal places, `ROUND_DOWN` meaning truncation toward zero. -/
def roundDown2 (q : ℚ) : ℚ :=
  if 0 ≤ q then dfloorQ (q * 100) / 100 else dceilQ (q * 100) / 100

/-- JavaScript truthiness of a possibly-`undefined` boolean: `undefined`
(modeled as `none`) is falsy. -/
def truthy : Option Bool → Bool
  | none => false
  | some b => b

/-! The breakpoint loops at src/index.js:176 and 186 compare two `Decimal`
objects with the raw JavaScript relational operators `>=` / `<=` (unlike the
`aboveMinimum` test, which uses the library's `greaterThanOrEqualTo`).  The
abstract relational comparison coerces each object with `valueOf`, and
`Decimal.prototype.valueOf` returns the decimal's STRING representation, so
both operands become strings and JS compares them lexicographically by code
units — e.g. `"9" >= "10"` is true.  The next definitions model that. -/

/-- ECMAScript string less-than: lexicographic by code units, a proper
prefix being less than its extension.  (All strings involved are ASCII, so
code-unit order coincides with `Char` order.) -/
def jsStrLt : List Char → List Char → Bool
  | [], [] => false
  | [], _ :: _ => true
  | _ :: _, [] => false
  | a :: as, b :: bs =>
    if a < b then true
    else if b < a then false
    else jsStrLt as bs

/-- Decimal digits of the fractional part `r / d` (most significant first),
stopping when the remainder vanishes.  The fuel bounds the expansion at 20
digits — decimal.js holds at most 20 significant digits at its default
precision, and every value this program compares has at most 3 fractional
digits, so the expansion always terminates well inside the fuel. -/
def fracDigitsAux : Nat → Nat → Nat → List Char
  | 0, _, _ => []
  | fuel + 1, r, d =>
    if r = 0 then []
    else
      let r10 := r * 10
      Char.ofNat (48 + r10 / d) :: fracDigitsAux fuel (r10 % d) d

/-- The string `Decimal.prototype.valueOf` (= `toString`) produces for a
decimal value, as a character list: optional `-` sign, integer digits, and a
`.` plus fraction digits without trailing zeros when the value is not an
integer.  This models the positional-notation regime; decimal.js would
switch to exponential notation only for magnitudes at or above `1e21` or
below `1e-7`, which the catalog formulas never produce from the displayed
input ranges, and it renders a negative zero as `"-0"`, which `ℚ` cannot
represent (no catalog formula produces one). -/
def decStr (q : ℚ) : List Char :=
  let sign : List Char := if q < 0 then ['-'] else []
  let n : Nat := q.num.natAbs
  let d : Nat := q.den
  let intPart : List Char := Nat.toDigits 10 (n / d)
  let frac : List Char := fracDigitsAux 20 (n % d) d
  sign ++ intPart ++ (if frac.isEmpty then [] else '.' :: frac)

/-- JS `x >= y` on two `Decimal` objects: both coerce to their `valueOf`
strings and the comparison is the negation of string less-than. -/
def decimalGE (x y : ℚ) : Bool := ! jsStrLt (decStr x) (decStr y)

/-- JS `x <= y` on two `Decimal` objects, by the same string coercion. -/
def decimalLE (x y : ℚ) : Bool := ! jsStrLt (decStr y) (decStr x)

theorem jsStrLt_irrefl (s : List Char) : jsStrLt s s = false := by
  induction s with
  | nil => rfl
  | cons a as ih =>
    rw [jsStrLt, if_neg (lt_irrefl a), if_neg (lt_irrefl a)]
    exact ih

theorem decimalGE_refl (x : ℚ) : decimalGE x x = true := by
  rw [decimalGE, jsStrLt_irrefl]
  rfl

theorem decimalLE_refl (x : ℚ) : decimalLE x x = true := by
  rw [decimalLE, jsStrLt_irrefl]
  rfl

/-- The intermediates array: an association list from a derived value's
`name` to its already-computed result.  (In the source this is a JS array
used as a string-keyed map; keys within one stat are distinct.) -/
abbrev Intermediates := List (String × ℚ)

/-- Property read `inter.name` on the intermediates object.  In the source a
missing key would yield `undefined` and crash the subsequent arithmetic; the
catalog only reads keys recorded by earlier specs, so the default `0` branch
is never exercised there. -/
def interGet (inter : Intermediates) (key : String) : ℚ :=
  (inter.lookup key).getD 0

/-- One derived-value definition (source class `DerivedValue` and its
subclasses).  `hasBreakpointsRaw` is the raw JS value produced by the
`hasBreakpoints` getter: `some true` for the base class, `none`
(i.e. `undefined`, since the overriding getter body `false;` lacks a
`return`) for `NoBreakpointDerivedValue`. -/
structure DerivedValue where
  name : String
  displayName : String
  calcFn : ℚ → ℚ → Intermediates → ℚ
  isPercent : Bool
  invertedBreakpoints : Bool
  hasBreakpointsRaw : Option Bool

/-- Constructor of the base class `DerivedValue`. -/
def mkDerivedValue (name displayName : String)
    (calcFn : ℚ → ℚ → Intermediates → ℚ) : DerivedValue :=
  { name := name, displayName := displayName, calcFn := calcFn,
    isPercent := true, invertedBreakpoints := false,
    hasBreakpointsRaw := some true }

/-- The `isntPercent()` builder method. -/
def DerivedValue.isntPercent (v : DerivedValue) : DerivedValue :=
  { v with isPercent := false }

/-- Getter `lesserBreakpointDirection`: `+1` if inverted else `-1`. -/
def DerivedValue.lesserBreakpointDirection (v : DerivedValue) : ℚ :=
  if v.invertedBreakpoints then 1 else -1

/-- Getter `greaterBreakpointDirection`: `-1` if inverted else `+1`. -/
def DerivedValue.greaterBreakpointDirection (v : DerivedValue) : ℚ :=
  if v.invertedBreakpoints then -1 else 1

/-- Subclass `NoBreakpointDerivedValue`: its `hasBreakpoints` getter body is
the bare expression statement `false;`, so the getter returns `undefined`. -/
def NoBreakpointDerivedValue (name displayName : String)
    (calcFn : ℚ → ℚ → Intermediates → ℚ) : DerivedValue :=
  { mkDerivedValue name displayName calcFn with hasBreakpointsRaw := none }

/-- Subclass `InvertedDerivedValue`: sets `invertedBreakpoints = true`. -/
def InvertedDerivedValue (name displayName : String)
    (calcFn : ℚ → ℚ → Intermediates → ℚ) : DerivedValue :=
  { mkDerivedValue name displayName calcFn with invertedBreakpoints := true }

/-- Subclass `SpeedDerivedValue`: recast-time formula
`(1000 - extra) * timeConstant / 1000`, floored, divided by `1000`, truncated
to two decimal places; non-percent and inverted. -/
def SpeedDerivedValue (baseSpeed : String) (timeConstant : ℚ) : DerivedValue :=
  { name := baseSpeed, displayName := baseSpeed,
    calcFn := fun _ extra _ =>
      roundDown2 (dfloorQ ((1000 - extra) * timeConstant / 1000) / 1000),
    isPercent := false, invertedBreakpoints := true,
    hasBreakpointsRaw := some true }

/-- The record shape returned for one derived value by
`Stat.derivedValues`.  `hasBreakpoints` keeps the raw JS value written by the
object literals (`some true` / `some false`); the breakpoint fields are
absent (`none`) on the no-breakpoint branch. -/
structure DVRecord where
  name : String
  value : ℚ
  isPercent : Bool
  hasBreakpoints : Option Bool
  lesserBreakpoint : Option ℚ
  greaterBreakpoint : Option ℚ
deriving DecidableEq

/-- A statistic: name, base value, delta rate and its ordered derived-value
definitions.  `currentValue` is the mutable field of the source object; it is
passed explicitly to the functions below. -/
structure Stat where
  name : String
  statBase : ℚ
  deltaRate : ℚ
  derivedValueDefns : List DerivedValue

/-- The `levelMod` constant. -/
def levelMod : ℚ := 3300

/-- The `extra` closure of `Stat`:
`deltaRate.times(currentValue.minus(statBase)).dividedBy(levelMod).floor()`. -/
def Stat.extra (st : Stat) (currentValue : ℚ) : ℚ :=
  dfloorQ (st.deltaRate * (currentValue - st.statBase) / levelMod)

/-- The breakpoint search loop:
`while (cond(candidate) && breaker++ < 1e4) candidate += dir`.  The source
loop tests the condition before each step and performs at most `1e4` steps;
`fuel` is instantiated with `10000` at the call sites. -/
def searchWhile (cond : ℚ → Bool) (dir : ℚ) : Nat → ℚ → ℚ
  | 0, candidate => candidate
  | fuel + 1, candidate =>
    if cond candidate then searchWhile cond dir fuel (candidate + dir)
    else candidate

/-- The body of the `map` inside `Stat.derivedValues`, for one definition
`v` given the intermediates accumulated so far.  In the source the breakpoint
loops call `v.calcFn` with only two arguments, so the intermediates parameter
of `calcFn` is `undefined` there; every breakpoint-bearing catalog spec
ignores that parameter, and the embedding passes `[]`.  The loop exits
`v.calcFn(...) >= realValue` and `<= realValue` apply the raw JS relational
operators to two `Decimal` objects, which compare their `valueOf` strings
lexicographically (`decimalGE` / `decimalLE`); only the `aboveMinimum` test
uses the library's numeric `greaterThanOrEqualTo`. -/
def Stat.stepRecord (st : Stat) (currentValue : ℚ) (v : DerivedValue)
    (inter : Intermediates) : DVRecord :=
  let realValue := v.calcFn currentValue (st.extra currentValue) inter
  let aboveMinimum := decide (st.statBase ≤ currentValue)
  if truthy v.hasBreakpointsRaw && aboveMinimum then
    let lesserBreakpoint :=
      searchWhile (fun c => decimalGE (v.calcFn c (st.extra c) []) realValue)
        v.lesserBreakpointDirection 10000 currentValue
    let greaterBreakpoint :=
      searchWhile (fun c => decimalLE (v.calcFn c (st.extra c) []) realValue)
        v.greaterBreakpointDirection 10000 currentValue
    { name := v.displayName, value := realValue,
      hasBreakpoints := some true, isPercent := v.isPercent,
      lesserBreakpoint := some lesserBreakpoint,
      greaterBreakpoint := some greaterBreakpoint }
  else
    { name := v.displayName, value := realValue,
      isPercent := v.isPercent, hasBreakpoints := some false,
      lesserBreakpoint := none, greaterBreakpoint := none }

/-- The `derivedValueDefns.map(...)` recursion: each definition is mapped to
its record, and its result is recorded in the intermediates (keyed by its
`name`) before the next definition runs. -/
def Stat.derivedValuesFrom (st : Stat) (currentValue : ℚ) :
    List DerivedValue → Intermediates → List DVRecord
  | [], _ => []
  | v :: rest, inter =>
    let realValue := v.calcFn currentValue (st.extra currentValue) inter
    st.stepRecord currentValue v inter ::
      st.derivedValuesFrom currentValue rest (inter ++ [(v.name, realValue)])

/-- `Stat.derivedValues`, evaluated at an explicit current value. -/
def Stat.derivedValues (st : Stat) (currentValue : ℚ) : List DVRecord :=
  st.derivedValuesFrom currentValue st.derivedValueDefns []

/-- The intermediates accumulated after processing `i` definitions of the
given list, starting from a given accumulator. -/
def Stat.interExt (st : Stat) (currentValue : ℚ) :
    List DerivedValue → Intermediates → Nat → Intermediates
  | _, inter, 0 => inter
  | [], inter, _ + 1 => inter
  | v :: rest, inter, i + 1 =>
    st.interExt currentValue rest
      (inter ++ [(v.name, v.calcFn currentValue (st.extra currentValue) inter)]) i

/-- The intermediates visible to the `i`-th derived-value definition. -/
def Stat.interUpTo (st : Stat) (currentValue : ℚ) (i : Nat) : Intermediates :=
  st.interExt currentValue st.derivedValueDefns [] i

/-! The fixed catalog from `StatList`.  The derived-value definitions are
given names here so theorems can refer to them; their contents are verbatim
from the source. -/

/-- Critical Hit `rate`: `(extra + 50) / 1000`. -/
def critRateDV : DerivedValue :=
  mkDerivedValue "rate" "Crit Rate" (fun _ extra _ => (extra + 50) / 1000)

/-- Critical Hit `bonus`: `(extra + 400) / 1000`. -/
def critBonusDV : DerivedValue :=
  mkDerivedValue "bonus" "Bonus Dmg" (fun _ extra _ => (extra + 400) / 1000)

/-- Critical Hit `edmg`: `1 + inter.rate * inter.bonus`. -/
def critEdmgDV : DerivedValue :=
  NoBreakpointDerivedValue "edmg" "Expected Dmg"
    (fun _ _ inter => 1 + interGet inter "rate" * interGet inter "bonus")

/-- The Critical Hit stat. -/
def criticalHit : Stat :=
  { name := "Critical Hit", statBase := 380, deltaRate := 200,
    derivedValueDefns := [critRateDV, critBonusDV, critEdmgDV] }

/-- Direct Hit `rate`: `extra / 1000`. -/
def dhRateDV : DerivedValue :=
  mkDerivedValue "rate" "DH Hit" (fun _ extra _ => extra / 1000)

/-- Direct Hit `bonus`: the constant `0.25`. -/
def dhBonusDV : DerivedValue :=
  NoBreakpointDerivedValue "bonus" "Bonus Dmg" (fun _ _ _ => 0.25)

/-- Direct Hit `edmg`: `1 + inter.rate * inter.bonus`. -/
def dhEdmgDV : DerivedValue :=
  NoBreakpointDerivedValue "edmg" "Expected Dmg"
    (fun _ _ inter => 1 + interGet inter "rate" * interGet inter "bonus")

/-- The Direct Hit stat. -/
def directHit : Stat :=
  { name := "Direct Hit", statBase := 380, deltaRate := 550,
    derivedValueDefns := [dhRateDV, dhBonusDV, dhEdmgDV] }

/-- Determination `damage mult`: `(extra + 1000) / 1000`. -/
def detMultDV : DerivedValue :=
  mkDerivedValue "damage mult" "Damage Multiplier"
    (fun _ extra _ => (extra + 1000) / 1000)

/-- The Determination stat. -/
def determination : Stat :=
  { name := "Determination", statBase := 340, deltaRate := 130,
    derivedValueDefns := [detMultDV] }

/-- Spell/Skill Speed `mult`: `(extra + 1000) / 1000`. -/
def speedMultDV : DerivedValue :=
  mkDerivedValue "mult" "DoT Scalar" (fun _ extra _ => (extra + 1000) / 1000)

/-- The Spell/Skill Speed stat. -/
def spellSkillSpeed : Stat :=
  { name := "Spell/Skill Speed", statBase := 380, deltaRate := 130,
    derivedValueDefns :=
      [speedMultDV,
       SpeedDerivedValue "1.5s" 1500,
       SpeedDerivedValue "2.0s" 2000,
       SpeedDerivedValue "2.5s" 2500,
       SpeedDerivedValue "2.8s" 2800,
       SpeedDerivedValue "3.0s" 3000,
       SpeedDerivedValue "3.5s" 3500,
       SpeedDerivedValue "4.0s" 4000] }

/-- Tenacity `mult`: `(extra + 1000) / 1000`. -/
def tenacityMultDV : DerivedValue :=
  mkDerivedValue "mult" "Damage Multiplier"
    (fun _ extra _ => (extra + 1000) / 1000)

/-- Tenacity `mit` (inverted): `(1000 - extra) / 1000`. -/
def tenacityMitDV : DerivedValue :=
  InvertedDerivedValue "mit" "Mitigation%"
    (fun _ extra _ => (1000 - extra) / 1000)

/-- The Tenacity stat. -/
def tenacity : Stat :=
  { name := "Tenacity", statBase := 380, deltaRate := 100,
    derivedValueDefns := [tenacityMultDV, tenacityMitDV] }

/-- Piety `mp` (non-percent): the extra itself. -/
def pietyMpDV : DerivedValue :=
  (mkDerivedValue "mp" "Additional MP per Tick"
    (fun _ extra _ => extra)).isntPercent

/-- The Piety stat. -/
def piety : Stat :=
  { name := "Piety", statBase := 340, deltaRate := 150,
    derivedValueDefns := [pietyMpDV] }

/-- Defense `mit`: `extra / 100`. -/
def defenseMitDV : DerivedValue :=
  mkDerivedValue "mit" "Mitigation%" (fun _ extra _ => extra / 100)

/-- The Defense stat. -/
def defense : Stat :=
  { name := "Defense", statBase := 0, deltaRate := 15,
    derivedValueDefns := [defenseMitDV] }

/-- The `stats` list of `StatList`. -/
def statList : List Stat :=
  [criticalHit, directHit, determination, spellSkillSpeed, tenacity, piety, defense]

/-! The `StatBlock` event handlers.  The view layer holds one mutable
`currentValue` per stat; each handler maps the old value (and, for text
edits, the raw input string) to the new value. -/

/-- Model of the JavaScript `parseInt` builtin in its default radix-10 use:
skip leading whitespace, read an optional sign, then the longest prefix of
decimal digits; `none` models `NaN` (no digits found).  (The hexadecimal
`0x` prefix form is not modeled; the catalog inputs are plain integers.) -/
def parseIntJS (s : String) : Option Int :=
  let trimmed := s.data.dropWhile Char.isWhitespace
  let signAndRest : Int × List Char :=
    match trimmed with
    | '-' :: cs => (-1, cs)
    | '+' :: cs => (1, cs)
    | cs => (1, cs)
  let digits := signAndRest.2.takeWhile Char.isDigit
  if digits.isEmpty then none
  else some (signAndRest.1 *
    (digits.foldl (fun a c => a * 10 + ((c.toNat - '0'.toNat : Nat) : Int)) 0))

/-- The `oninput` handler: `parseInt` the text, and set the stat's value to
`0` when the result is `NaN`, otherwise to the parsed integer. -/
def applyTextEdit (_currentValue : ℚ) (s : String) : ℚ :=
  match parseIntJS s with
  | none => 0
  | some n => (n : ℚ)

/-- The `-` button handler: `stat.currentValue.minus(1)`. -/
def applyDecrement (currentValue : ℚ) : ℚ := currentValue - 1

/-- The `+` button handler: `stat.currentValue.plus(1)`. -/
def applyIncrement (currentValue : ℚ) : ℚ := currentValue + 1

/-! Basic facts about the executable floor, ceiling and two-place
truncation. -/

theorem dfloorQ_le (q : ℚ) : dfloorQ q ≤ q := by
  rw [dfloorQ_eq]; exact Int.floor_le q

theorem sub_one_lt_dfloorQ (q : ℚ) : q - 1 < dfloorQ q := by
  rw [dfloorQ_eq]; exact Int.sub_one_lt_floor q

theorem dfloorQ_zero : dfloorQ 0 = 0 := by
  rw [dfloorQ_eq, Int.floor_zero, Int.cast_zero]

/-! Facts about the breakpoint search loop. -/

/-- The search always lands a whole number of steps from its start. -/
theorem searchWhile_steps (cond : ℚ → Bool) (dir : ℚ) :
    ∀ (fuel : Nat) (start : ℚ),
      ∃ k : Nat, k ≤ fuel ∧ searchWhile cond dir fuel start = start + k * dir := by
  intro fuel
  induction fuel with
  | zero =>
    intro start
    exact ⟨0, le_refl 0, by simp [searchWhile]⟩
  | succ n ih =>
    intro start
    by_cases h : cond start = true
    · obtain ⟨k, hk, he⟩ := ih (start + dir)
      refine ⟨k + 1, by omega, ?_⟩
      rw [searchWhile, if_pos h, he]
      push_cast
      ring
    · refine ⟨0, by omega, ?_⟩
      rw [searchWhile, if_neg h]
      simp

/-- If the condition fails somewhere within range, then the search stops at a
candidate where the condition fails, and unless it never moved, the condition
held one step before. -/
theorem searchWhile_pos_steps (cond : ℚ → Bool) (dir : ℚ) (fuel : Nat) (start : ℚ)
    (hc : cond start = true) (hf : 1 ≤ fuel) :
    ∃ k : Nat, 1 ≤ k ∧ k ≤ fuel ∧ searchWhile cond dir fuel start = start + k * dir := by
  obtain ⟨n, rfl⟩ : ∃ n, fuel = n + 1 := ⟨fuel - 1, by omega⟩
  have hrw : searchWhile cond dir (n + 1) start = searchWhile cond dir n (start + dir) := by
    rw [searchWhile, if_pos hc]
  obtain ⟨k, hk, he⟩ := searchWhile_steps cond dir n (start + dir)
  refine ⟨k + 1, by omega, by omega, ?_⟩
  rw [hrw, he]
  push_cast
  ring

/-! Unfolding the per-definition record on each side of the
`hasBreakpoints && aboveMinimum` test. -/

theorem Stat.stepRecord_eq_pos (st : Stat) (cur : ℚ) (v : DerivedValue)
    (inter : Intermediates)
    (ht : truthy v.hasBreakpointsRaw = true) (hmin : st.statBase ≤ cur) :
    st.stepRecord cur v inter =
      { name := v.displayName,
        value := v.calcFn cur (st.extra cur) inter,
        isPercent := v.isPercent,
        hasBreakpoints := some true,
        lesserBreakpoint := some (searchWhile
          (fun c => decimalGE (v.calcFn c (st.extra c) [])
            (v.calcFn cur (st.extra cur) inter))
          v.lesserBreakpointDirection 10000 cur),
        greaterBreakpoint := some (searchWhile
          (fun c => decimalLE (v.calcFn c (st.extra c) [])
            (v.calcFn cur (st.extra cur) inter))
          v.greaterBreakpointDirection 10000 cur) } := by
  simp only [Stat.stepRecord, ht, decide_eq_true hmin, Bool.and_self, if_true]

theorem Stat.stepRecord_eq_neg (st : Stat) (cur : ℚ) (v : DerivedValue)
    (inter : Intermediates)
    (h : (truthy v.hasBreakpointsRaw && decide (st.statBase ≤ cur)) = false) :
    st.stepRecord cur v inter =
      { name := v.displayName,
        value := v.calcFn cur (st.extra cur) inter,
        isPercent := v.isPercent,
        hasBreakpoints := some false,
        lesserBreakpoint := none,
        greaterBreakpoint := none } := by
  simp only [Stat.stepRecord, h, Bool.false_eq_true, if_false]

/-! Characterizing the output list of `derivedValues` elementwise. -/

theorem Stat.derivedValuesFrom_get? (st : Stat) (cur : ℚ) :
    ∀ (l : List DerivedValue) (inter : Intermediates) (i : Nat),
      (st.derivedValuesFrom cur l inter).get? i =
        (l.get? i).map (fun v => st.stepRecord cur v (st.interExt cur l inter i)) := by
  intro l
  induction l with
  | nil =>
    intro inter i
    simp [Stat.derivedValuesFrom]
  | cons v rest ih =>
    intro inter i
    cases i with
    | zero =>
      simp [Stat.derivedValuesFrom, Stat.interExt]
    | succ n =>
      show ((st.derivedValuesFrom cur (v :: rest) inter).get? (n + 1)) = _
      rw [Stat.derivedValuesFrom]
      simp only [List.get?_cons_succ]
      rw [ih]
      rfl

theorem Stat.derivedValues_get? (st : Stat) (cur : ℚ) (i : Nat) :
    (st.derivedValues cur).get? i =
      (st.derivedValueDefns.get? i).map
        (fun v => st.stepRecord cur v (st.interUpTo cur i)) :=
  st.derivedValuesFrom_get? cur st.derivedValueDefns [] i

theorem Stat.derivedValuesFrom_length (st : Stat) (cur : ℚ) :
    ∀ (l : List DerivedValue) (inter : Intermediates),
      (st.derivedValuesFrom cur l inter).length = l.length := by
  intro l
  induction l with
  | nil => intro inter; rfl
  | cons v rest ih =>
    intro inter
    simp only [Stat.derivedValuesFrom, List.length_cons, ih]

theorem Stat.derivedValues_length (st : Stat) (cur : ℚ) :
    (st.derivedValues cur).length = st.derivedValueDefns.length :=
  st.derivedValuesFrom_length cur st.derivedValueDefns []

/-- Every output record is the step record of some definition. -/
theorem Stat.derivedValuesFrom_mem (st : Stat) (cur : ℚ) :
    ∀ (l : List DerivedValue) (inter : Intermediates) (r : DVRecord),
      r ∈ st.derivedValuesFrom cur l inter →
      ∃ v inter', v ∈ l ∧ r = st.stepRecord cur v inter' := by
  intro l
  induction l with
  | nil =>
    intro inter r hr
    simp [Stat.derivedValuesFrom] at hr
  | cons v rest ih =>
    intro inter r hr
    rw [Stat.derivedValuesFrom] at hr
    rcases List.mem_cons.mp hr with hr | hr
    · exact ⟨v, inter, List.mem_cons_self v rest, hr⟩
    · obtain ⟨v', inter', hv', he⟩ := ih _ r hr
      exact ⟨v', inter', List.mem_cons_of_mem v hv', he⟩

/-- The stored `hasBreakpoints` field of any step record is a definite
boolean. -/
theorem Stat.stepRecord_hasBreakpoints (st : Stat) (cur : ℚ) (v : DerivedValue)
    (inter : Intermediates) :
    (st.stepRecord cur v inter).hasBreakpoints = some true ∨
      (st.stepRecord cur v inter).hasBreakpoints = some false := by
  by_cases h : (truthy v.hasBreakpointsRaw && decide (st.statBase ≤ cur)) = true
  · obtain ⟨h1, h2⟩ := Bool.and_eq_true_iff.mp h
    left
    rw [st.stepRecord_eq_pos cur v inter h1 (of_decide_eq_true h2)]
  · right
    rw [st.stepRecord_eq_neg cur v inter (Bool.not_eq_true _ ▸ Bool.of_not_eq_true h)]

/-- Unpacking membership in the fixed stat catalog. -/
theorem mem_statList_cases {st : Stat} (h : st ∈ statList) :
    st = criticalHit ∨ st = directHit ∨ st = determination ∨
      st = spellSkillSpeed ∨ st = tenacity ∨ st = piety ∨ st = defense := by
  simp only [statList, List.mem_cons, List.not_mem_nil, or_false] at h
  exact h

/-- Every breakpoint-bearing definition of the fixed catalog computes its
formula from the candidate value and `extra` alone, ignoring the
intermediates argument. -/
theorem catalog_calcFn_inter_free :
    ∀ st ∈ statList, ∀ (i : Nat) (v : DerivedValue),
      st.derivedValueDefns.get? i = some v →
      truthy v.hasBreakpointsRaw = true →
      ∀ s e inter1 inter2, v.calcFn s e inter1 = v.calcFn s e inter2 := by
  intro st hst i v hget ht
  rcases mem_statList_cases hst with rfl | rfl | rfl | rfl | rfl | rfl | rfl
  · rcases i with _ | _ | _ | i
    · obtain rfl := Option.some.inj hget
      intro s e inter1 inter2
      rfl
    · obtain rfl := Option.some.inj hget
      intro s e inter1 inter2
      rfl
    · obtain rfl := Option.some.inj hget
      simp [critEdmgDV, NoBreakpointDerivedValue, mkDerivedValue, truthy] at ht
    · simp [criticalHit] at hget
  · rcases i with _ | _ | _ | i
    · obtain rfl := Option.some.inj hget
      intro s e inter1 inter2
      rfl
    · obtain rfl := Option.some.inj hget
      simp [dhBonusDV, NoBreakpointDerivedValue, mkDerivedValue, truthy] at ht
    · obtain rfl := Option.some.inj hget
      simp [dhEdmgDV, NoBreakpointDerivedValue, mkDerivedValue, truthy] at ht
    · simp [directHit] at hget
  · rcases i with _ | i
    · obtain rfl := Option.some.inj hget
      intro s e inter1 inter2
      rfl
    · simp [determination] at hget
  · rcases i with _ | _ | _ | _ | _ | _ | _ | _ | i
    · obtain rfl := Option.some.inj hget
      intro s e inter1 inter2
      rfl
    · obtain rfl := Option.some.inj hget
      intro s e inter1 inter2
      rfl
    · obtain rfl := Option.some.inj hget
      intro s e inter1 inter2
      rfl
    · obtain rfl := Option.some.inj hget
      intro s e inter1 inter2
      rfl
    · obtain rfl := Option.some.inj hget
      intro s e inter1 inter2
      rfl
    · obtain rfl := Option.some.inj hget
      intro s e inter1 inter2
      rfl
    · obtain rfl := Option.some.inj hget
      intro s e inter1 inter2
      rfl
    · obtain rfl := Option.some.inj hget
      intro s e inter1 inter2
      rfl
    · simp [spellSkillSpeed] at hget
  · rcases i with _ | _ | i
    · obtain rfl := Option.some.inj hget
      intro s e inter1 inter2
      rfl
    · obtain rfl := Option.some.inj hget
      intro s e inter1 inter2
      rfl
    · simp [tenacity] at hget
  · rcases i with _ | i
    · obtain rfl := Option.some.inj hget
      intro s e inter1 inter2
      rfl
    · simp [piety] at hget
  · rcases i with _ | i
    · obtain rfl := Option.some.inj hget
      intro s e inter1 inter2
      rfl
    · simp [defense] at hget

/-- The stored value of a step record is the formula's result at the current
value, on both sides of the breakpoint test. -/
theorem Stat.stepRecord_value (st : Stat) (cur : ℚ) (v : DerivedValue)
    (inter : Intermediates) :
    (st.stepRecord cur v inter).value = v.calcFn cur (st.extra cur) inter := by
  by_cases h : (truthy v.hasBreakpointsRaw && decide (st.statBase ≤ cur)) = true
  · obtain ⟨h1, h2⟩ := Bool.and_eq_true_iff.mp h
    rw [st.stepRecord_eq_pos cur v inter h1 (of_decide_eq_true h2)]
  · rw [st.stepRecord_eq_neg cur v inter (Bool.not_eq_true _ ▸ Bool.of_not_eq_true h)]

/-- Processing one more definition appends exactly its named result to the
intermediates. -/
theorem Stat.interExt_snoc (st : Stat) (cur : ℚ) :
    ∀ (l : List DerivedValue) (inter : Intermediates) (i : Nat) (v : DerivedValue),
      l.get? i = some v →
      st.interExt cur l inter (i + 1) =
        st.interExt cur l inter i ++
          [(v.name, v.calcFn cur (st.extra cur) (st.interExt cur l inter i))] := by
  intro l
  induction l with
  | nil =>
    intro inter i v hget
    simp at hget
  | cons w rest ih =>
    intro inter i v hget
    cases i with
    | zero =>
      obtain rfl := Option.some.inj hget
      simp [Stat.interExt]
    | succ n =>
      simp only [List.get?_cons_succ] at hget
      simp only [Stat.interExt]
      exact ih _ n v hget

theorem Stat.interUpTo_succ (st : Stat) (cur : ℚ) (i : Nat) (v : DerivedValue)
    (hget : st.derivedValueDefns.get? i = some v) :
    st.interUpTo cur (i + 1) =
      st.interUpTo cur i ++
        [(v.name, v.calcFn cur (st.extra cur) (st.interUpTo cur i))] :=
  st.interExt_snoc cur st.derivedValueDefns [] i v hget

/-- If the condition holds at every candidate within range, the search
performs all `fuel` steps and returns the last candidate reached. -/
theorem searchWhile_saturates (cond : ℚ → Bool) (dir : ℚ) :
    ∀ (fuel : Nat) (start : ℚ),
      (∀ j : Nat, j < fuel → cond (start + j * dir) = true) →
      searchWhile cond dir fuel start = start + fuel * dir := by
  intro fuel
  induction fuel with
  | zero =>
    intro start _
    simp [searchWhile]
  | succ n ih =>
    intro start h
    have h0 : cond start = true := by simpa using h 0 (by omega)
    rw [searchWhile, if_pos h0, ih (start + dir) ?_]
    · push_cast; ring
    · intro j hj
      have hj1 := h (j + 1) (by omega)
      have he : start + ((j : ℚ) + 1) * dir = start + dir + j * dir := by ring
      push_cast at hj1
      rw [he] at hj1
      exact hj1

/-- The record produced for the Critical Hit `rate` definition at the base
input `380`. -/
def critRateRecord380 : DVRecord :=
  { name := "Crit Rate", value := 1/20, isPercent := true,
    hasBreakpoints := some true, lesserBreakpoint := some 379,
    greaterBreakpoint := some 397 }

set_option maxRecDepth 8000 in
/-- C1: For every breakpoint-bearing spec evaluated at a currentValue at or
above the statistic's baseValue, recomputing the spec's calcFn (with the
corresponding extra) at the returned lesserBreakpoint yields a value strictly
less than realValue, and at the candidate one search-step back toward
currentValue yields a value greater than or equal to realValue; symmetrically,
recomputing at the returned greaterBreakpoint yields a value strictly greater
than realValue, and one step back yields a value less than or equal to
realValue.  The code violates this claim: its loop exits compare the decimal
values as JS `valueOf` strings, so at the Piety statistic with currentValue
560 (realValue 10) the lesser search walks past the true breakpoint 559 —
`"9" >= "10"` holds lexicographically — all the way to 383, and the candidate
one step back toward currentValue (384) recomputes to 2, strictly below
realValue, where the claim requires a value at least realValue.  This theorem
evaluates the embedded code at that failing input: the full returned record
(lesser breakpoint 383), and the violated one-step-back inequality. -/
theorem C1_piety_bracketing_violation :
    (piety.derivedValues 560).get? 0 = some
      { name := "Additional MP per Tick", value := 10, isPercent := false,
        hasBreakpoints := some true,
        lesserBreakpoint := some 383, greaterBreakpoint := some 582 } ∧
    pietyMpDV.calcFn (383 - pietyMpDV.lesserBreakpointDirection)
      (piety.extra (383 - pietyMpDV.lesserBreakpointDirection)) [] < 10 := by
  constructor
  · with_unfolding_all decide
  · with_unfolding_all decide

/-- C10: For every breakpoint-bearing spec whose calcFn does not read
intermediates (true of every breakpoint-bearing spec in the shipped catalog),
evaluated at a currentValue at or above baseValue, both returned breakpoints
differ from currentValue by at least one step in the respective search
direction: the recomputed value at the starting candidate equals realValue,
so each search loop body executes at least once.  (Under the source's
string-based loop comparisons this still holds: the starting candidate's
recomputed value is the same decimal as realValue, identical strings compare
equal, so both loops take their first step.) -/
theorem C10_search_always_steps :
    ∀ st ∈ statList, ∀ (i : Nat) (v : DerivedValue),
      st.derivedValueDefns.get? i = some v →
      truthy v.hasBreakpointsRaw = true →
      (∀ s e inter1 inter2, v.calcFn s e inter1 = v.calcFn s e inter2) ∧
      ∀ (v0 : ℚ), st.statBase ≤ v0 → ∀ r : DVRecord,
        (st.derivedValues v0).get? i = some r →
        v.calcFn v0 (st.extra v0) [] = r.value ∧
        ∃ lB gB, r.lesserBreakpoint = some lB ∧ r.greaterBreakpoint = some gB ∧
          (∃ k : Nat, 1 ≤ k ∧ lB = v0 + k * v.lesserBreakpointDirection) ∧
          (∃ k : Nat, 1 ≤ k ∧ gB = v0 + k * v.greaterBreakpointDirection) := by
  intro st hst i v hget ht
  have hind := catalog_calcFn_inter_free st hst i v hget ht
  refine ⟨hind, ?_⟩
  intro v0 hv0 r hrec
  rw [st.derivedValues_get? v0 i, hget, Option.map_some'] at hrec
  obtain rfl := Option.some.inj hrec
  rw [st.stepRecord_eq_pos v0 v (st.interUpTo v0 i) ht hv0]
  have hval : v.calcFn v0 (st.extra v0) [] =
      v.calcFn v0 (st.extra v0) (st.interUpTo v0 i) := hind _ _ _ _
  refine ⟨hval, ?_⟩
  refine ⟨_, _, rfl, rfl, ?_, ?_⟩
  · have hc : (fun c => decimalGE (v.calcFn c (st.extra c) [])
        (v.calcFn v0 (st.extra v0) (st.interUpTo v0 i))) v0 = true := by
      show decimalGE (v.calcFn v0 (st.extra v0) [])
        (v.calcFn v0 (st.extra v0) (st.interUpTo v0 i)) = true
      rw [hval]
      exact decimalGE_refl _
    obtain ⟨k, hk1, -, hk3⟩ := searchWhile_pos_steps
      (fun c => decimalGE (v.calcFn c (st.extra c) [])
        (v.calcFn v0 (st.extra v0) (st.interUpTo v0 i)))
      v.lesserBreakpointDirection 10000 v0 hc (by norm_num)
    exact ⟨k, hk1, hk3⟩
  · have hc : (fun c => decimalLE (v.calcFn c (st.extra c) [])
        (v.calcFn v0 (st.extra v0) (st.interUpTo v0 i))) v0 = true := by
      show decimalLE (v.calcFn v0 (st.extra v0) [])
        (v.calcFn v0 (st.extra v0) (st.interUpTo v0 i)) = true
      rw [hval]
      exact decimalLE_refl _
    obtain ⟨k, hk1, -, hk3⟩ := searchWhile_pos_steps
      (fun c => decimalLE (v.calcFn c (st.extra c) [])
        (v.calcFn v0 (st.extra v0) (st.interUpTo v0 i)))
      v.greaterBreakpointDirection 10000 v0 hc (by norm_num)
    exact ⟨k, hk1, hk3⟩

/-- Witness for C10 at the Critical Hit `rate` definition with current value
`380`. -/
theorem C10_search_always_steps_witness :
    critRateDV.calcFn 380 (criticalHit.extra 380) [] = critRateRecord380.value ∧
    ∃ lB gB,
      critRateRecord380.lesserBreakpoint = some lB ∧
      critRateRecord380.greaterBreakpoint = some gB ∧
      (∃ k : Nat, 1 ≤ k ∧ lB = 380 + k * critRateDV.lesserBreakpointDirection) ∧
      (∃ k : Nat, 1 ≤ k ∧ gB = 380 + k * critRateDV.greaterBreakpointDirection) :=
  (C10_search_always_steps criticalHit (by simp [statList]) 0 critRateDV rfl rfl).2
    380 (by with_unfolding_all decide) critRateRecord380
    (by with_unfolding_all decide)

/-- C2: For every statistic and every decimal candidate value v, the
extra-value function returns floor(deltaRate * (v - baseValue) / 3300),
where floor rounds toward negative infinity (not toward zero) and all
arithmetic is exact decimal; in particular extra(baseValue) = 0 for every
statistic. -/
theorem C2_extra_formula :
    ∀ st ∈ statList, ∀ v : ℚ,
      st.extra v = ((⌊st.deltaRate * (v - st.statBase) / 3300⌋ : ℤ) : ℚ) ∧
      (st.extra v ≤ st.deltaRate * (v - st.statBase) / 3300 ∧
        st.deltaRate * (v - st.statBase) / 3300 < st.extra v + 1) ∧
      st.extra st.statBase = 0 := by
  intro st _hst v
  refine ⟨?_, ⟨?_, ?_⟩, ?_⟩
  · unfold Stat.extra levelMod
    rw [dfloorQ_eq]
  · exact dfloorQ_le _
  · have := sub_one_lt_dfloorQ (st.deltaRate * (v - st.statBase) / levelMod)
    unfold Stat.extra levelMod
    unfold levelMod at this
    linarith
  · unfold Stat.extra levelMod
    rw [sub_self, mul_zero, zero_div, dfloorQ_zero]

/-- Witness for C2 at Critical Hit with input `400`. -/
theorem C2_extra_formula_witness :
    criticalHit.extra 400 =
      ((⌊criticalHit.deltaRate * (400 - criticalHit.statBase) / 3300⌋ : ℤ) : ℚ) ∧
    (criticalHit.extra 400 ≤
        criticalHit.deltaRate * (400 - criticalHit.statBase) / 3300 ∧
      criticalHit.deltaRate * (400 - criticalHit.statBase) / 3300 <
        criticalHit.extra 400 + 1) ∧
    criticalHit.extra criticalHit.statBase = 0 :=
  C2_extra_formula criticalHit (by simp [statList]) 400

/-- C3: Evaluation computes the specs strictly in their declared order,
passing each spec's computeFn the current value, the extra value, and a
mapping containing every earlier spec's result keyed by its name, and records
each result under the spec's name before the next spec runs; consequently
for Critical Hit with base 380, deltaRate 200, and input 380, the three
results in order are rate = 0.05, bonus = 0.4, and edmg = 1 + 0.05*0.4 =
1.02. -/
theorem C3_evaluation_order :
    (∀ st ∈ statList, ∀ (cur : ℚ) (i : Nat) (v : DerivedValue),
      st.derivedValueDefns.get? i = some v →
      ((st.derivedValues cur).get? i).map DVRecord.value =
        some (v.calcFn cur (st.extra cur) (st.interUpTo cur i)) ∧
      st.interUpTo cur (i + 1) =
        st.interUpTo cur i ++
          [(v.name, v.calcFn cur (st.extra cur) (st.interUpTo cur i))]) ∧
    (criticalHit.derivedValues 380).map DVRecord.value = [1/20, 2/5, 51/50] := by
  constructor
  · intro st _hst cur i v hget
    constructor
    · rw [st.derivedValues_get? cur i, hget, Option.map_some', Option.map_some',
        st.stepRecord_value cur v (st.interUpTo cur i)]
    · exact st.interUpTo_succ cur i v hget
  · with_unfolding_all decide

/-- Witness for C3 at Critical Hit with input `380`, first definition. -/
theorem C3_evaluation_order_witness :
    ((criticalHit.derivedValues 380).get? 0).map DVRecord.value =
      some (critRateDV.calcFn 380 (criticalHit.extra 380)
        (criticalHit.interUpTo 380 0)) ∧
    criticalHit.interUpTo 380 1 =
      criticalHit.interUpTo 380 0 ++
        [(critRateDV.name, critRateDV.calcFn 380 (criticalHit.extra 380)
          (criticalHit.interUpTo 380 0))] :=
  C3_evaluation_order.1 criticalHit (by simp [statList]) 380 0 critRateDV rfl

/-- C4: For every speed-derived value with a given timeConstant, the computed
result equals floor((1000 - extra) * timeConstant / 1000) / 1000 rounded down
to 2 decimal places; the spec is non-percent and uses inverted breakpoint
directions; in particular for the 2.5s entry at input 380 (base 380, extra 0)
the result is 2.50. -/
theorem C4_speed_formula :
    (∀ (bs : String) (tc : ℚ),
      (SpeedDerivedValue bs tc).isPercent = false ∧
      (SpeedDerivedValue bs tc).invertedBreakpoints = true ∧
      ∀ s e inter, (SpeedDerivedValue bs tc).calcFn s e inter =
        roundDown2 (((⌊(1000 - e) * tc / 1000⌋ : ℤ) : ℚ) / 1000)) ∧
    (∀ q : ℚ, 0 ≤ q → roundDown2 q = ((⌊q * 100⌋ : ℤ) : ℚ) / 100) ∧
    ((spellSkillSpeed.derivedValues 380).get? 3).map DVRecord.value =
      some (5/2) ∧
    ((spellSkillSpeed.derivedValues 380).get? 3).map DVRecord.isPercent =
      some false := by
  refine ⟨?_, ?_, ?_, ?_⟩
  · intro bs tc
    refine ⟨rfl, rfl, ?_⟩
    intro s e inter
    show roundDown2 (dfloorQ ((1000 - e) * tc / 1000) / 1000) = _
    rw [dfloorQ_eq]
  · intro q hq
    unfold roundDown2
    rw [if_pos hq, dfloorQ_eq]
  · with_unfolding_all decide
  · with_unfolding_all decide

/-- Witness for the conditional clause of C4. -/
theorem C4_speed_formula_witness :
    roundDown2 (3/2) = ((⌊(3/2 : ℚ) * 100⌋ : ℤ) : ℚ) / 100 :=
  C4_speed_formula.2.1 (3/2) (by norm_num)

/-- C5: Each breakpoint search (lesser and greater) terminates after at most
10,000 steps for every spec and every starting value; when the cap is reached
the search returns the last candidate it reached, without raising any error
or producing any result distinguishable from a normal one. -/
theorem C5_search_termination :
    ∀ (cond : ℚ → Bool) (dir start : ℚ),
      (∃ k : Nat, k ≤ 10000 ∧
        searchWhile cond dir 10000 start = start + k * dir) ∧
      ((∀ j : Nat, j < 10000 → cond (start + j * dir) = true) →
        searchWhile cond dir 10000 start = start + 10000 * dir) := by
  intro cond dir start
  refine ⟨searchWhile_steps cond dir 10000 start, ?_⟩
  intro hall
  have := searchWhile_saturates cond dir 10000 start hall
  rw [this]
  norm_num

/-- Witness for C5 with a condition that always, and one that never, holds. -/
theorem C5_search_termination_witness :
    (∃ k : Nat, k ≤ 10000 ∧
      searchWhile (fun _ => false) 1 10000 0 = 0 + k * 1) ∧
    searchWhile (fun _ => true) 1 10000 0 = 0 + 10000 * 1 :=
  ⟨(C5_search_termination (fun _ => false) 1 0).1,
   (C5_search_termination (fun _ => true) 1 0).2 (fun _ _ => rfl)⟩

/-- C6: When currentValue is strictly below baseValue, no breakpoint search
is performed for any spec (the returned records carry hasBreakpoints false
and no breakpoint fields) while every plain derived value is still computed
and returned; and at currentValue equal to baseValue, extra equals 0. -/
theorem C6_below_base :
    (∀ (st : Stat) (cur : ℚ), cur < st.statBase →
      (st.derivedValues cur).length = st.derivedValueDefns.length ∧
      ∀ (i : Nat) (v : DerivedValue), st.derivedValueDefns.get? i = some v →
        (st.derivedValues cur).get? i = some
          { name := v.displayName,
            value := v.calcFn cur (st.extra cur) (st.interUpTo cur i),
            isPercent := v.isPercent,
            hasBreakpoints := some false,
            lesserBreakpoint := none,
            greaterBreakpoint := none }) ∧
    ∀ st : Stat, st.extra st.statBase = 0 := by
  constructor
  · intro st cur hcur
    refine ⟨st.derivedValues_length cur, ?_⟩
    intro i v hget
    rw [st.derivedValues_get? cur i, hget, Option.map_some']
    congr 1
    apply st.stepRecord_eq_neg
    rw [decide_eq_false (not_le.mpr hcur), Bool.and_false]
  · intro st
    unfold Stat.extra levelMod
    rw [sub_self, mul_zero, zero_div, dfloorQ_zero]

/-- Witness for C6 at Critical Hit with input `100 < 380`. -/
theorem C6_below_base_witness :
    (criticalHit.derivedValues 100).length =
      criticalHit.derivedValueDefns.length ∧
    (criticalHit.derivedValues 100).get? 0 = some
      { name := critRateDV.displayName,
        value := critRateDV.calcFn 100 (criticalHit.extra 100)
          (criticalHit.interUpTo 100 0),
        isPercent := critRateDV.isPercent,
        hasBreakpoints := some false,
        lesserBreakpoint := none,
        greaterBreakpoint := none } ∧
    piety.extra piety.statBase = 0 :=
  ⟨(C6_below_base.1 criticalHit 100 (by with_unfolding_all decide)).1,
   (C6_below_base.1 criticalHit 100 (by with_unfolding_all decide)).2 0
     critRateDV rfl,
   C6_below_base.2 piety⟩

/-- C7: Calling the full derived-value evaluation twice at the same
currentValue, with no mutation in between, yields identical output sequences
(same records, same values, same breakpoints) both times.  The embedded
evaluation is a pure function of the statistic's definition and its current
value, mirroring that the source's `derivedValues` reads but never writes the
statistic's state, so two successive calls return equal lists. -/
theorem C7_evaluation_idempotent :
    ∀ (st : Stat) (cur : ℚ), st.derivedValues cur = st.derivedValues cur :=
  fun _ _ => rfl

/-- C8: A non-numeric text edit sets the statistic's currentValue to exactly
zero without surfacing any error, and an increment or decrement event adds
or subtracts exactly 1 from the statistic's current value. -/
theorem C8_input_handlers :
    ∀ (cur : ℚ) (s : String), parseIntJS s = none →
      applyTextEdit cur s = 0 ∧
      applyIncrement cur = cur + 1 ∧
      applyDecrement cur = cur - 1 := by
  intro cur s h
  refine ⟨?_, rfl, rfl⟩
  unfold applyTextEdit
  rw [h]

/-- Witness for C8 on the non-numeric input `"abc"`. -/
theorem C8_input_handlers_witness :
    applyTextEdit 5 "abc" = 0 ∧
    applyIncrement 5 = 5 + 1 ∧
    applyDecrement 5 = 5 - 1 :=
  C8_input_handlers 5 "abc" (by with_unfolding_all decide)

/-- C9: Every record returned by derivedValues() carries a hasBreakpoints
field that is exactly the boolean true or the boolean false, even though the
hasBreakpoints getter of NoBreakpointDerivedValue returns undefined (its
body lacks a return statement) rather than the boolean false; the
non-boolean value never reaches the output interface. -/
theorem C9_hasBreakpoints_definite :
    (∀ (st : Stat) (cur : ℚ), ∀ r ∈ st.derivedValues cur,
      r.hasBreakpoints = some true ∨ r.hasBreakpoints = some false) ∧
    ∀ (name displayName : String) (calcFn : ℚ → ℚ → Intermediates → ℚ),
      (NoBreakpointDerivedValue name displayName calcFn).hasBreakpointsRaw =
        none := by
  constructor
  · intro st cur r hr
    obtain ⟨v, inter', -, rfl⟩ :=
      st.derivedValuesFrom_mem cur st.derivedValueDefns [] r hr
    exact st.stepRecord_hasBreakpoints cur v inter'
  · intro n d f
    rfl

/-- Witness for C9 on a concrete record of the Critical Hit output. -/
theorem C9_hasBreakpoints_definite_witness :
    critRateRecord380.hasBreakpoints = some true ∨
      critRateRecord380.hasBreakpoints = some false :=
  C9_hasBreakpoints_definite.1 criticalHit 380 critRateRecord380
    (by with_unfolding_all decide)

end StatCalc
